import Mathlib

/-!
# Chemistry-Practice: adaptive difficulty controller and answer grading

A shallow embedding of `src/src/lib/adaptive.js` (`normalizeAnswer`,
`decideNextState`), of the grading expression of `submit` in `src/src/App.jsx`
and of the difficulty sanitiser of `src/server/vercel/api/generate.js`.

Modelling conventions.

* Grades, streaks and thresholds are JavaScript numbers holding integers; they
  are modelled as `Int`. `decideNextState` is the controller with the arithmetic
  of mathematical integers; `decideNextStateBinary64` is the same controller
  with the IEEE-754 binary64 `+` and `-` of the runtime, which round from 2^53
  on. The two agree as long as grade and streak are below 2^53 in magnitude
  (`decideNextStateBinary64_correct_eq`, `decideNextStateBinary64_wrong_eq`).
* A JavaScript string is modelled as the list of its code points (`List Char`).
  The two regular expressions of `normalizeAnswer` and `trim` only ever look at
  single BMP code points, so nothing is lost on well-formed strings.
* `String.prototype.toLowerCase` depends on the Unicode case tables of the
  JavaScript runtime, which are not part of the repository: it is a parameter
  of `normalizeAnswer`. `toLowerCaseAscii` is the instance used for evaluation;
  it agrees with the runtime on strings without cased non-ASCII characters.
-/

namespace ChemistryPractice

/-! ## The controller (`src/src/lib/adaptive.js`, lines 19-33) -/

/-- The object `{ nextGrade, nextStreak }` returned by `decideNextState`. -/
structure NextState where
  nextGrade : Int
  nextStreak : Int
  deriving DecidableEq

/-- Default of the destructured parameter `upThreshold`. -/
def defaultUpThreshold : Int := 2

/-- Default of the destructured parameter `minGrade`. -/
def defaultMinGrade : Int := 6

/-- Default of the destructured parameter `maxGrade`. -/
def defaultMaxGrade : Int := 12

/-- The function `decideNextState` of `adaptive.js`, statement by statement:
two mutable locals, one `if`/`else` on `wasCorrect`, one nested `if` in each
branch. The sums are those of mathematical integers, which is what the runtime
computes for grades and streaks below 2^53 in magnitude; see
`decideNextStateBinary64` for the arithmetic of the runtime beyond. -/
def decideNextState (currentGrade currentStreak : Int) (wasCorrect : Bool)
    (upThreshold minGrade maxGrade : Int) : NextState := Id.run do
  let mut nextGrade := currentGrade
  let mut nextStreak := currentStreak
  if wasCorrect then
    nextStreak := currentStreak + 1
    if nextStreak ≥ upThreshold ∧ currentGrade < maxGrade then
      nextGrade := currentGrade + 1
      nextStreak := 0
  else
    nextStreak := 0
    if currentGrade > minGrade then
      nextGrade := currentGrade - 1
  return { nextGrade := nextGrade, nextStreak := nextStreak }

/-- The session state of `App.jsx`: the React state variables `grade` and
`streak`. -/
structure Session where
  grade : Int
  streak : Int
  deriving DecidableEq

/-- One controller step on the session state: call `decideNextState` and store
both results, as `submit` does with `setGrade(nextGrade)` and
`setStreak(nextStreak)`. -/
def stepSession (upThreshold minGrade maxGrade : Int) (st : Session)
    (wasCorrect : Bool) : Session :=
  let r := decideNextState st.grade st.streak wasCorrect upThreshold minGrade maxGrade
  { grade := r.nextGrade, streak := r.nextStreak }

/-- The state after a finite sequence of outcomes, applied step by step. -/
def runSession (upThreshold minGrade maxGrade : Int) (st : Session)
    (outcomes : List Bool) : Session :=
  outcomes.foldl (stepSession upThreshold minGrade maxGrade) st

/-- Every state reached along a finite sequence of outcomes, the start excluded,
in the order reached. -/
def traceSession (upThreshold minGrade maxGrade : Int) :
    Session → List Bool → List Session
  | _, [] => []
  | st, b :: bs =>
    let st1 := stepSession upThreshold minGrade maxGrade st b
    st1 :: traceSession upThreshold minGrade maxGrade st1 bs

/-- The pair written in section 4.3 of the specification, used only to compare
`decideNextState` with it. -/
def specTransition (currentGrade currentStreak : Int) (wasCorrect : Bool)
    (upThreshold minGrade maxGrade : Int) : Int × Int :=
  if wasCorrect then
    if currentStreak + 1 ≥ upThreshold ∧ currentGrade < maxGrade then
      (currentGrade + 1, 0)
    else
      (currentGrade, currentStreak + 1)
  else
    if currentGrade > minGrade then
      (currentGrade - 1, 0)
    else
      (currentGrade, 0)

/-! ## The controller on the numbers of the runtime

The `+` and `-` of `adaptive.js` (lines 23, 25 and 30) are the IEEE-754 binary64
operations of JavaScript: the exact result, rounded to the nearest number with a
53-bit significand, ties to the even significand. On integers this is exact up
to 2^53 in magnitude and rounds beyond. The definitions below repeat the
controller with that arithmetic on integer-valued numbers. -/

/-- The search for the unit in the last place of the magnitude `a`: the least
`u` among `u`, `2 * u`, `4 * u`, ... with `a < 2 ^ 53 * u`. -/
def ulpFrom : Nat → Nat → Nat → Nat
  | 0, u, _ => u
  | fuel + 1, u, a => if a < 2 ^ 53 * u then u else ulpFrom fuel (2 * u) a

/-- The spacing of the binary64 numbers around the magnitude `a`: 1 below 2^53, 2
from 2^53 to 2^54, and so on. The 1024 doublings cover every finite binary64
magnitude. -/
def ulp (a : Nat) : Nat :=
  ulpFrom 1024 1 a

/-- Rounding of an integer to the nearest integer-valued binary64 number, ties
to the even significand (the default rounding of IEEE-754, used by every
arithmetic operation of JavaScript). The overflow to infinity is left out: it
cannot happen for `x + 1` or `x - 1` with `x` a finite number. -/
def roundBinary64 (n : Int) : Int :=
  let a := n.natAbs
  let u := ulp a
  let q := a / u
  let r := a % u
  let m :=
    if 2 * r < u then q
    else if u < 2 * r then q + 1
    else if q % 2 = 0 then q else q + 1
  n.sign * ((m * u : Nat) : Int)

/-- The operator `+` of JavaScript on two integer-valued numbers. -/
def addBinary64 (x y : Int) : Int :=
  roundBinary64 (x + y)

/-- The operator `-` of JavaScript on two integer-valued numbers. -/
def subBinary64 (x y : Int) : Int :=
  roundBinary64 (x - y)

/-- The function `decideNextState` of `adaptive.js`, statement by statement, with
the binary64 `+` and `-` of the runtime. The comparisons `>=`, `<` and `>` of
two numbers are exact. -/
def decideNextStateBinary64 (currentGrade currentStreak : Int) (wasCorrect : Bool)
    (upThreshold minGrade maxGrade : Int) : NextState := Id.run do
  let mut nextGrade := currentGrade
  let mut nextStreak := currentStreak
  if wasCorrect then
    nextStreak := addBinary64 currentStreak 1
    if nextStreak ≥ upThreshold ∧ currentGrade < maxGrade then
      nextGrade := addBinary64 currentGrade 1
      nextStreak := 0
  else
    nextStreak := 0
    if currentGrade > minGrade then
      nextGrade := subBinary64 currentGrade 1
  return { nextGrade := nextGrade, nextStreak := nextStreak }

/-- One controller step on the session state, with `decideNextStateBinary64`. -/
def stepSessionBinary64 (upThreshold minGrade maxGrade : Int) (st : Session)
    (wasCorrect : Bool) : Session :=
  let r := decideNextStateBinary64 st.grade st.streak wasCorrect upThreshold minGrade maxGrade
  { grade := r.nextGrade, streak := r.nextStreak }

/-- The state after a finite sequence of outcomes, with `stepSessionBinary64`. -/
def runSessionBinary64 (upThreshold minGrade maxGrade : Int) (st : Session)
    (outcomes : List Bool) : Session :=
  outcomes.foldl (stepSessionBinary64 upThreshold minGrade maxGrade) st

/-! ## The normaliser (`src/src/lib/adaptive.js`, lines 4-12) -/

/-- A JavaScript string, as the list of its code points. -/
abbrev JSString := List Char

/-- The characters matched by the regular expression class `\s` and stripped by
`String.prototype.trim`: the ECMAScript WhiteSpace and LineTerminator code
points (TAB, LF, VT, FF, CR, SP, NBSP, U+1680, U+2000..U+200A, LS, PS, U+202F,
U+205F, U+3000, ZWNBSP). -/
def isWhiteSpace (c : Char) : Bool :=
  c.toNat == 0x09 || c.toNat == 0x0A || c.toNat == 0x0B || c.toNat == 0x0C ||
  c.toNat == 0x0D || c.toNat == 0x20 || c.toNat == 0xA0 || c.toNat == 0x1680 ||
  (0x2000 ≤ c.toNat && c.toNat ≤ 0x200A) || c.toNat == 0x2028 || c.toNat == 0x2029 ||
  c.toNat == 0x202F || c.toNat == 0x205F || c.toNat == 0x3000 || c.toNat == 0xFEFF

/-- The characters matched by the regular expression class `[.,;:()]`. -/
def isPunctuation (c : Char) : Bool :=
  c == '.' || c == ',' || c == ';' || c == ':' || c == '(' || c == ')'

/-- The method `String.prototype.trim`: white space is dropped at both ends. -/
def trim (s : JSString) : JSString :=
  ((s.dropWhile isWhiteSpace).reverse.dropWhile isWhiteSpace).reverse

/-- The scan behind `replace(/\s+/g, ' ')`: `inRun` tells that the character
before was white space, so that the run it belongs to has already been replaced
by its one space. -/
def collapseFrom : Bool → JSString → JSString
  | _, [] => []
  | inRun, c :: cs =>
    if isWhiteSpace c then
      if inRun then collapseFrom true cs else ' ' :: collapseFrom true cs
    else
      c :: collapseFrom false cs

/-- The call `.replace(/\s+/g, ' ')`: every maximal run of white space becomes one
space. -/
def collapseWhiteSpace (s : JSString) : JSString :=
  collapseFrom false s

/-- The call `.replace(/[.,;:()]/g, '')`: every character of the class is
deleted. -/
def removePunctuation (s : JSString) : JSString :=
  s.filter (fun c => !isPunctuation c)

/-- The function `normalizeAnswer` of `adaptive.js`. `none` stands for `null` and
`undefined` (the guard `s == null`); the chain is applied in the order of the
source: `trim`, `toLowerCase`, white-space collapse, punctuation removal.
The method `toLowerCase` of the runtime is the first argument. -/
def normalizeAnswer (toLowerCase : JSString → JSString) : Option JSString → JSString
  | none => []
  | some s => removePunctuation (collapseWhiteSpace (toLowerCase (trim s)))

/-- Lower-casing of the letters `A`..`Z` only, every other code point unchanged:
what `toLowerCase` of the runtime does on a string whose other characters have
no lower-case mapping. -/
def toLowerCaseAscii (s : JSString) : JSString :=
  s.map Char.toLower

/-- The property of the runtime's `toLowerCase` that the evaluations below rely on:
on a string of ASCII characters it lowers `A`..`Z` and changes nothing else. -/
def LowersAscii (toLowerCase : JSString → JSString) : Prop :=
  ∀ s : JSString, (∀ c ∈ s, c.toNat < 128) → toLowerCase s = s.map Char.toLower

/-! ## Grading (`src/src/App.jsx`, lines 49-55) -/

/-- The fields of a question that `submit` grades against. `acceptedAnswers` is
`none` when the field is missing (the source then uses `[]`). -/
structure Question where
  canonicalAnswer : Option JSString
  acceptedAnswers : Option (List JSString)

/-- The value `correct` computed in `submit` for the typed `answer`: the
normalised answer is strictly equal to the normalised canonical answer, or
`includes` finds it among the normalised accepted answers. -/
def submitCorrect (toLowerCase : JSString → JSString) (answer : JSString)
    (question : Question) : Bool :=
  let userNormalized := normalizeAnswer toLowerCase (some answer)
  let canonicalNormalized := normalizeAnswer toLowerCase question.canonicalAnswer
  let accepted :=
    (question.acceptedAnswers.getD []).map (fun a => normalizeAnswer toLowerCase (some a))
  (userNormalized == canonicalNormalized) || accepted.contains userNormalized

/-- The normal form described in the specification's insensitivity property, in
the order it lists the steps: every character of the punctuation set is deleted,
letters are lower-cased, leading and trailing white space is dropped and every
white-space run becomes one space. Used only to state that property; the code
is `normalizeAnswer`, which deletes the punctuation last. -/
def specNormalForm (toLowerCase : JSString → JSString) (s : JSString) : JSString :=
  collapseWhiteSpace (trim (toLowerCase (removePunctuation s)))

/-! ## The provider-side sanitiser (`src/server/vercel/api/generate.js`, lines 10-12) -/

/-- A JavaScript number as far as comparison sees it: `NaN`, the two infinities,
or a finite value. Finite doubles are rationals, and `Math.max`, `Math.min` and
`||` only compare them, so that no rounding is involved. -/
inductive JSNumber where
  | nan
  | negInf
  | posInf
  | finite (q : ℚ)
  deriving DecidableEq

/-- Truthiness of a number, as `||` tests it: `NaN` and zero are falsy. -/
def JSNumber.truthy : JSNumber → Bool
  | .nan => false
  | .finite q => q != 0
  | _ => true

/-- The operator `||` on numbers: the left operand when it is truthy, else the
right one. -/
def JSNumber.or (a b : JSNumber) : JSNumber :=
  if a.truthy then a else b

/-- The function `Math.min` on two numbers. -/
def JSNumber.min : JSNumber → JSNumber → JSNumber
  | .nan, _ => .nan
  | _, .nan => .nan
  | .negInf, _ => .negInf
  | _, .negInf => .negInf
  | .posInf, b => b
  | a, .posInf => a
  | .finite a, .finite b => .finite (if a ≤ b then a else b)

/-- The function `Math.max` on two numbers. -/
def JSNumber.max : JSNumber → JSNumber → JSNumber
  | .nan, _ => .nan
  | _, .nan => .nan
  | .posInf, _ => .posInf
  | _, .posInf => .posInf
  | .negInf, b => b
  | a, .negInf => a
  | .finite a, .finite b => .finite (if a ≤ b then b else a)

/-- The sanitiser of the `generate` handler,
`Math.max(6, Math.min(12, Number(difficulty) || 6))`, after the destructuring
default `difficulty = 6`. The request field is `none` when it is absent and
otherwise `some n`, where `n` is what `Number` returns for the value sent: the
number itself for a JSON number, `NaN` for a value that is not numeric. -/
def sanitizeDifficulty (difficulty : Option JSNumber) : JSNumber :=
  let n : JSNumber :=
    match difficulty with
    | none => .finite 6
    | some v => v
  JSNumber.max (.finite 6) (JSNumber.min (.finite 12) (JSNumber.or n (.finite 6)))

/-! ## Theorems -/

/-! ### One controller call -/

theorem decideNextState_correct (g s k lo hi : Int) :
    decideNextState g s true k lo hi =
      if s + 1 ≥ k ∧ g < hi then ⟨g + 1, 0⟩ else ⟨g, s + 1⟩ := by
  simp [decideNextState, Id.run]

theorem decideNextState_wrong (g s k lo hi : Int) :
    decideNextState g s false k lo hi =
      if g > lo then ⟨g - 1, 0⟩ else ⟨g, 0⟩ := by
  simp [decideNextState, Id.run]

theorem stepSession_correct (k lo hi : Int) (st : Session) :
    stepSession k lo hi st true =
      if st.streak + 1 ≥ k ∧ st.grade < hi then ⟨st.grade + 1, 0⟩
      else ⟨st.grade, st.streak + 1⟩ := by
  simp only [stepSession, decideNextState_correct]
  split <;> rfl

theorem stepSession_wrong (k lo hi : Int) (st : Session) :
    stepSession k lo hi st false =
      if st.grade > lo then ⟨st.grade - 1, 0⟩ else ⟨st.grade, 0⟩ := by
  simp only [stepSession, decideNextState_wrong]
  split <;> rfl

theorem stepSession_grade_in_range (k lo hi : Int) (st : Session) (b : Bool)
    (hlo : lo ≤ st.grade) (hhi : st.grade ≤ hi) :
    lo ≤ (stepSession k lo hi st b).grade ∧ (stepSession k lo hi st b).grade ≤ hi := by
  cases b
  · rw [stepSession_wrong]
    split <;> constructor <;> simp only <;> omega
  · rw [stepSession_correct]
    split <;> constructor <;> simp only <;> omega

/-! ### Sequences of calls -/

theorem runSession_nil (k lo hi : Int) (st : Session) :
    runSession k lo hi st [] = st := rfl

theorem runSession_cons (k lo hi : Int) (st : Session) (b : Bool) (bs : List Bool) :
    runSession k lo hi st (b :: bs) = runSession k lo hi (stepSession k lo hi st b) bs := rfl

theorem traceSession_in_range (k lo hi : Int) (outcomes : List Bool) :
    ∀ st : Session, lo ≤ st.grade → st.grade ≤ hi →
      ∀ st1 ∈ traceSession k lo hi st outcomes, lo ≤ st1.grade ∧ st1.grade ≤ hi := by
  induction outcomes with
  | nil => intro st _ _ st1 h; simp [traceSession] at h
  | cons b bs ih =>
    intro st hlo hhi st1 h
    have hstep := stepSession_grade_in_range k lo hi st b hlo hhi
    simp only [traceSession, List.mem_cons] at h
    rcases h with h | h
    · subst h; exact hstep
    · exact ih _ hstep.1 hstep.2 st1 h

/-- Wrong answers from a state with streak 0 and grade at least `lo`. -/
theorem runSession_wrong_from_zero (k lo hi : Int) (n : Nat) :
    ∀ d : Int, lo ≤ d →
      runSession k lo hi ⟨d, 0⟩ (List.replicate n false) = ⟨max lo (d - n), 0⟩ := by
  induction n with
  | zero => intro d hd; simp [runSession_nil, hd]
  | succ n ih =>
    intro d hd
    rw [List.replicate_succ, runSession_cons, stepSession_wrong]
    split
    · rename_i hgt
      simp only at hgt
      rw [ih (d - 1) (by omega)]
      congr 1
      push_cast
      omega
    · rename_i hgt
      simp only at hgt
      rw [ih d hd]
      congr 1
      push_cast
      omega

/-! ### The controller claims -/

/-- C2: the grade never leaves `[minGrade, maxGrade]`: one call of
`decideNextState` on a grade in range returns a grade in range, and so does
every state reached along any finite sequence of outcomes from a state whose
grade is in range. -/
theorem grade_stays_in_range (minGrade maxGrade upThreshold currentStreak currentGrade : Int)
    (wasCorrect : Bool) (hlo : minGrade ≤ currentGrade) (hhi : currentGrade ≤ maxGrade) :
    (minGrade ≤
        (decideNextState currentGrade currentStreak wasCorrect upThreshold minGrade maxGrade).nextGrade
      ∧ (decideNextState currentGrade currentStreak wasCorrect upThreshold minGrade maxGrade).nextGrade
          ≤ maxGrade)
    ∧ ∀ (outcomes : List Bool),
        ∀ st ∈ traceSession upThreshold minGrade maxGrade ⟨currentGrade, currentStreak⟩ outcomes,
          minGrade ≤ st.grade ∧ st.grade ≤ maxGrade :=
  ⟨stepSession_grade_in_range upThreshold minGrade maxGrade ⟨currentGrade, currentStreak⟩
      wasCorrect hlo hhi,
    fun outcomes =>
      traceSession_in_range upThreshold minGrade maxGrade outcomes ⟨currentGrade, currentStreak⟩
        hlo hhi⟩

/-- Witness for C2: the start state `(6, 0)` of the application with the default
bounds 6..12 and threshold 2. -/
theorem grade_stays_in_range_witness :
    ((6 : Int) ≤ (decideNextState 6 0 true 2 6 12).nextGrade
      ∧ (decideNextState 6 0 true 2 6 12).nextGrade ≤ 12)
    ∧ ∀ (outcomes : List Bool),
        ∀ st ∈ traceSession 2 6 12 ⟨6, 0⟩ outcomes, (6 : Int) ≤ st.grade ∧ st.grade ≤ 12 :=
  grade_stays_in_range 6 12 2 0 6 true (by decide) (by decide)

/-- C7: with the default bounds, `n ≥ 1` wrong answers from `(d, s)` with `d` in
`[6, 12]` lead to `(max 6 (d - n), 0)`; each single wrong answer from a grade
`g` in `[6, 12]` leads to `(max 6 (g - 1), 0)`; and from `(6, 0)` every number of
wrong answers leaves the state at `(6, 0)`. -/
theorem wrong_answers_step_down_to_floor (d : Int) (h6 : 6 ≤ d) (h12 : d ≤ 12)
    (s upThreshold : Int) (n : Nat) (hn : 1 ≤ n) :
    runSession upThreshold defaultMinGrade defaultMaxGrade ⟨d, s⟩ (List.replicate n false)
        = ⟨max 6 (d - n), 0⟩
    ∧ (∀ g s1 : Int, 6 ≤ g → g ≤ 12 →
        decideNextState g s1 false upThreshold defaultMinGrade defaultMaxGrade
          = ⟨max 6 (g - 1), 0⟩)
    ∧ (∀ m : Nat,
        runSession upThreshold defaultMinGrade defaultMaxGrade ⟨6, 0⟩ (List.replicate m false)
          = ⟨6, 0⟩) := by
  have one : ∀ g s1 : Int, 6 ≤ g → g ≤ 12 →
      decideNextState g s1 false upThreshold defaultMinGrade defaultMaxGrade
        = ⟨max 6 (g - 1), 0⟩ := by
    intro g s1 hg _
    rw [decideNextState_wrong]
    simp only [defaultMinGrade]
    split
    · congr 1; omega
    · congr 1; omega
  refine ⟨?_, one, ?_⟩
  · obtain ⟨m, rfl⟩ : ∃ m, n = m + 1 := ⟨n - 1, by omega⟩
    rw [List.replicate_succ, runSession_cons]
    have hstep : stepSession upThreshold defaultMinGrade defaultMaxGrade ⟨d, s⟩ false
        = ⟨max 6 (d - 1), 0⟩ := by
      simp only [stepSession, one d s h6 h12]
    rw [hstep, runSession_wrong_from_zero upThreshold defaultMinGrade defaultMaxGrade m
      (max 6 (d - 1)) (by simp only [defaultMinGrade]; omega)]
    simp only [defaultMinGrade]
    congr 1
    push_cast
    omega
  · intro m
    rw [runSession_wrong_from_zero upThreshold defaultMinGrade defaultMaxGrade m 6
      (by simp [defaultMinGrade])]
    simp only [defaultMinGrade]
    congr 1
    omega

/-- Witness for C7: three wrong answers from `(7, 5)` end at `(6, 0)`. -/
theorem wrong_answers_step_down_to_floor_witness :
    runSession 2 defaultMinGrade defaultMaxGrade ⟨7, 5⟩ (List.replicate 3 false)
        = ⟨max 6 (7 - (3 : Nat)), 0⟩
    ∧ (∀ g s1 : Int, 6 ≤ g → g ≤ 12 →
        decideNextState g s1 false 2 defaultMinGrade defaultMaxGrade
          = ⟨max 6 (g - 1), 0⟩)
    ∧ (∀ m : Nat,
        runSession 2 defaultMinGrade defaultMaxGrade ⟨6, 0⟩ (List.replicate m false)
          = ⟨6, 0⟩) :=
  wrong_answers_step_down_to_floor 7 (by decide) (by decide) 5 2 3 (by decide)


/-! ### The normaliser and grading -/

theorem lowersAscii_toLowerCaseAscii : LowersAscii toLowerCaseAscii :=
  fun _ _ => rfl

theorem mem_map_normalizeAnswer (toLowerCase : JSString → JSString) (x : JSString)
    (as : List JSString) :
    x ∈ as.map (fun a => normalizeAnswer toLowerCase (some a)) ↔
      ∃ a ∈ as, x = normalizeAnswer toLowerCase (some a) := by
  simp only [List.mem_map]
  constructor
  · rintro ⟨a, ha, rfl⟩; exact ⟨a, ha, rfl⟩
  · rintro ⟨a, ha, rfl⟩; exact ⟨a, ha, rfl⟩

/-- With the ASCII lower-casing, which leaves `h2o` and `h₂o` as they are, the
answer `h2o` is graded incorrect against the canonical answer `h₂o`. -/
theorem submitCorrect_h2o_subscript :
    submitCorrect toLowerCaseAscii "h2o".toList
      { canonicalAnswer := some "h₂o".toList, acceptedAnswers := none } = false := by
  decide

/-- C3: the value `correct` of `submit` is true exactly when the normalised user
answer equals the normalised canonical answer or the normalised form of some
accepted answer (a missing list counting as empty); the comparison is string
equality, so that `h2o` is graded incorrect against the canonical answer `h₂o`
with no accepted answers, both strings being left as they are by `toLowerCase`. -/
theorem submitCorrect_iff (toLowerCase : JSString → JSString) (u : JSString)
    (question : Question) :
    (submitCorrect toLowerCase u question = true ↔
      (normalizeAnswer toLowerCase (some u)
          = normalizeAnswer toLowerCase question.canonicalAnswer
        ∨ ∃ a ∈ question.acceptedAnswers.getD [],
            normalizeAnswer toLowerCase (some u) = normalizeAnswer toLowerCase (some a)))
    ∧ (toLowerCase "h2o".toList = "h2o".toList →
        toLowerCase "h₂o".toList = "h₂o".toList →
        submitCorrect toLowerCase "h2o".toList
          { canonicalAnswer := some "h₂o".toList, acceptedAnswers := none } = false) := by
  constructor
  · simp only [submitCorrect, Bool.or_eq_true, beq_iff_eq, List.contains, List.elem_eq_mem,
      decide_eq_true_eq, mem_map_normalizeAnswer]
  · intro h1 h2
    have t1 : trim "h2o".toList = "h2o".toList := by decide
    have t2 : trim "h₂o".toList = "h₂o".toList := by decide
    simp only [submitCorrect, normalizeAnswer, t1, t2, h1, h2, Option.getD_none, List.map_nil]
    decide


/-- On an answer whose trimmed form is ASCII, `normalizeAnswer` with any
`toLowerCase` that lowers ASCII as the runtime does is `normalizeAnswer` with
`toLowerCaseAscii`. -/
theorem normalizeAnswer_ascii (toLowerCase : JSString → JSString)
    (h : LowersAscii toLowerCase) (s : JSString) (hs : ∀ c ∈ trim s, c.toNat < 128) :
    normalizeAnswer toLowerCase (some s) = normalizeAnswer toLowerCaseAscii (some s) := by
  simp only [normalizeAnswer, toLowerCaseAscii, h (trim s) hs]

/-- The same for the grading of an ASCII answer against an ASCII canonical answer
without accepted answers. -/
theorem submitCorrect_ascii (toLowerCase : JSString → JSString)
    (h : LowersAscii toLowerCase) (u c : JSString)
    (hu : ∀ x ∈ trim u, x.toNat < 128) (hc : ∀ x ∈ trim c, x.toNat < 128) :
    submitCorrect toLowerCase u { canonicalAnswer := some c, acceptedAnswers := none }
      = submitCorrect toLowerCaseAscii u { canonicalAnswer := some c, acceptedAnswers := none } := by
  simp only [submitCorrect, normalizeAnswer_ascii toLowerCase h u hu,
    normalizeAnswer_ascii toLowerCase h c hc, Option.getD_none, List.map_nil]

/-- C9, evaluated on the code: on the string made of two spaces, `H2O`, one
space, a comma, two spaces, `(aq).` and one space, `normalizeAnswer` returns
`h2o`, TWO spaces, `aq` (the comma is deleted after the white space around it
was collapsed), which is not the string `h2o aq` with a single space. -/
theorem normalizeAnswer_h2o_aq (toLowerCase : JSString → JSString)
    (h : LowersAscii toLowerCase) :
    normalizeAnswer toLowerCase (some "  H2O ,  (aq). ".toList) = "h2o  aq".toList
    ∧ normalizeAnswer toLowerCase (some "  H2O ,  (aq). ".toList) ≠ "h2o aq".toList := by
  rw [normalizeAnswer_ascii toLowerCase h _ (by decide)]
  decide

/-- The evaluation of C9 with `toLowerCaseAscii`. -/
theorem normalizeAnswer_h2o_aq_witness :
    normalizeAnswer toLowerCaseAscii (some "  H2O ,  (aq). ".toList) = "h2o  aq".toList
    ∧ normalizeAnswer toLowerCaseAscii (some "  H2O ,  (aq). ".toList) ≠ "h2o aq".toList :=
  normalizeAnswer_h2o_aq toLowerCaseAscii lowersAscii_toLowerCaseAscii

/-- C4, evaluated on the code: `normalizeAnswer` is not idempotent at the answer
`a , b`. The first pass returns `a`, two spaces, `b`; the second pass collapses
the two spaces and returns `a b`. -/
theorem normalizeAnswer_twice_differs (toLowerCase : JSString → JSString)
    (h : LowersAscii toLowerCase) :
    normalizeAnswer toLowerCase (some "a , b".toList) = "a  b".toList
    ∧ normalizeAnswer toLowerCase (some (normalizeAnswer toLowerCase (some "a , b".toList)))
        = "a b".toList
    ∧ normalizeAnswer toLowerCase (some (normalizeAnswer toLowerCase (some "a , b".toList)))
        ≠ normalizeAnswer toLowerCase (some "a , b".toList) := by
  have e1 : normalizeAnswer toLowerCase (some "a , b".toList) = "a  b".toList := by
    rw [normalizeAnswer_ascii toLowerCase h _ (by decide)]
    decide
  have e2 : normalizeAnswer toLowerCase (some "a  b".toList) = "a b".toList := by
    rw [normalizeAnswer_ascii toLowerCase h _ (by decide)]
    decide
  rw [e1, e2]
  decide

/-- The evaluation of C4 with `toLowerCaseAscii`. -/
theorem normalizeAnswer_twice_differs_witness :
    normalizeAnswer toLowerCaseAscii (some "a , b".toList) = "a  b".toList
    ∧ normalizeAnswer toLowerCaseAscii
        (some (normalizeAnswer toLowerCaseAscii (some "a , b".toList))) = "a b".toList
    ∧ normalizeAnswer toLowerCaseAscii
        (some (normalizeAnswer toLowerCaseAscii (some "a , b".toList)))
        ≠ normalizeAnswer toLowerCaseAscii (some "a , b".toList) :=
  normalizeAnswer_twice_differs toLowerCaseAscii lowersAscii_toLowerCaseAscii

/-- C5, evaluated on the code: the answers `hydrochloric acid` and
`hydrochloric acid .` have the same normal form in the sense of the
specification, yet against the canonical answer `hydrochloric acid` the first is
graded correct and the second incorrect (its normalised form keeps the space
before the deleted full stop); the same happens when the canonical answer is
replaced by its variant `hydrochloric acid .`. The specification's own example
`Hydrochloric Acid.` is graded correct. -/
theorem grading_sensitive_to_spaced_punctuation (toLowerCase : JSString → JSString)
    (h : LowersAscii toLowerCase) :
    specNormalForm toLowerCase "hydrochloric acid".toList
        = specNormalForm toLowerCase "hydrochloric acid .".toList
    ∧ submitCorrect toLowerCase "hydrochloric acid".toList
        { canonicalAnswer := some "hydrochloric acid".toList, acceptedAnswers := none } = true
    ∧ submitCorrect toLowerCase "hydrochloric acid .".toList
        { canonicalAnswer := some "hydrochloric acid".toList, acceptedAnswers := none } = false
    ∧ submitCorrect toLowerCase "hydrochloric acid".toList
        { canonicalAnswer := some "hydrochloric acid .".toList, acceptedAnswers := none } = false
    ∧ submitCorrect toLowerCase "Hydrochloric Acid.".toList
        { canonicalAnswer := some "hydrochloric acid".toList, acceptedAnswers := none } = true := by
  refine ⟨?_, ?_, ?_, ?_, ?_⟩
  · have r1 : removePunctuation "hydrochloric acid".toList = "hydrochloric acid".toList := by
      decide
    have r2 : removePunctuation "hydrochloric acid .".toList = "hydrochloric acid ".toList := by
      decide
    simp only [specNormalForm, r1, r2, h "hydrochloric acid".toList (by decide),
      h "hydrochloric acid ".toList (by decide)]
    decide
  · rw [submitCorrect_ascii toLowerCase h _ _ (by decide) (by decide)]
    decide
  · rw [submitCorrect_ascii toLowerCase h _ _ (by decide) (by decide)]
    decide
  · rw [submitCorrect_ascii toLowerCase h _ _ (by decide) (by decide)]
    decide
  · rw [submitCorrect_ascii toLowerCase h _ _ (by decide) (by decide)]
    decide

/-- The evaluation of C5 with `toLowerCaseAscii`. -/
theorem grading_sensitive_to_spaced_punctuation_witness :
    specNormalForm toLowerCaseAscii "hydrochloric acid".toList
        = specNormalForm toLowerCaseAscii "hydrochloric acid .".toList
    ∧ submitCorrect toLowerCaseAscii "hydrochloric acid".toList
        { canonicalAnswer := some "hydrochloric acid".toList, acceptedAnswers := none } = true
    ∧ submitCorrect toLowerCaseAscii "hydrochloric acid .".toList
        { canonicalAnswer := some "hydrochloric acid".toList, acceptedAnswers := none } = false
    ∧ submitCorrect toLowerCaseAscii "hydrochloric acid".toList
        { canonicalAnswer := some "hydrochloric acid .".toList, acceptedAnswers := none } = false
    ∧ submitCorrect toLowerCaseAscii "Hydrochloric Acid.".toList
        { canonicalAnswer := some "hydrochloric acid".toList, acceptedAnswers := none } = true :=
  grading_sensitive_to_spaced_punctuation toLowerCaseAscii lowersAscii_toLowerCaseAscii


/-! ### The provider-side sanitiser -/

theorem sanitizeDifficulty_of_falsy (v : JSNumber) (hv : v.truthy = false) :
    sanitizeDifficulty (some v) = .finite 6 := by
  simp only [sanitizeDifficulty, JSNumber.or, hv, JSNumber.min, JSNumber.max]
  norm_num

theorem sanitizeDifficulty_none : sanitizeDifficulty none = .finite 6 := by
  simp only [sanitizeDifficulty, JSNumber.or, JSNumber.truthy, JSNumber.min, JSNumber.max]
  norm_num

theorem sanitizeDifficulty_finite (q : ℚ) :
    sanitizeDifficulty (some (.finite q)) =
      .finite (if q = 0 then 6 else if q < 6 then 6 else if 12 ≤ q then 12 else q) := by
  by_cases h0 : q = 0
  · subst h0
    rw [sanitizeDifficulty_of_falsy _ (by simp [JSNumber.truthy])]
    simp
  · simp only [sanitizeDifficulty, JSNumber.or, JSNumber.truthy, JSNumber.min, JSNumber.max,
      bne_iff_ne, ne_eq, h0, not_false_eq_true, if_true, if_false]
    congr 1
    split_ifs <;> first | rfl | linarith

theorem sanitizeDifficulty_in_range (difficulty : Option JSNumber) :
    ∃ q : ℚ, sanitizeDifficulty difficulty = .finite q ∧ 6 ≤ q ∧ q ≤ 12 := by
  rcases difficulty with _ | _ | _ | _ | q
  · exact ⟨6, sanitizeDifficulty_none, by norm_num, by norm_num⟩
  · exact ⟨6, sanitizeDifficulty_of_falsy _ rfl, by norm_num, by norm_num⟩
  · refine ⟨6, ?_, by norm_num, by norm_num⟩
    simp only [sanitizeDifficulty, JSNumber.or, JSNumber.truthy, JSNumber.min, JSNumber.max]
    norm_num
  · refine ⟨12, ?_, by norm_num, by norm_num⟩
    simp only [sanitizeDifficulty, JSNumber.or, JSNumber.truthy, JSNumber.min, JSNumber.max]
    norm_num
  · refine ⟨_, sanitizeDifficulty_finite q, ?_, ?_⟩
    · split_ifs with h0 h1 h2
      · norm_num
      · norm_num
      · norm_num
      · exact not_lt.mp h1
    · split_ifs with h0 h1 h2
      · norm_num
      · norm_num
      · norm_num
      · exact le_of_lt (not_le.mp h2)

theorem sanitizeDifficulty_int (n : Int) (h6 : 6 ≤ n) (h12 : n ≤ 12) :
    sanitizeDifficulty (some (.finite n)) = .finite n := by
  rw [sanitizeDifficulty_finite]
  have a : (6 : ℚ) ≤ n := by exact_mod_cast h6
  have b : (n : ℚ) ≤ 12 := by exact_mod_cast h12
  congr 1
  split_ifs with c0 c1 c2
  · linarith
  · linarith
  · linarith
  · rfl

/-- C10: the sanitiser `Math.max(6, Math.min(12, Number(difficulty) || 6))` of the
`generate` handler agrees with the controller's default bounds: its result is
always a finite number in `[6, 12]`; it is 6 when the difficulty is absent, not
numeric (`NaN`) or 0; it is the input for every integer in `[6, 12]`; hence every
`nextGrade` that `decideNextState` returns with the default bounds from a grade
in `[6, 12]` passes through it unchanged. -/
theorem sanitizeDifficulty_agrees_with_controller (difficulty : Option JSNumber) :
    (∃ q : ℚ, sanitizeDifficulty difficulty = .finite q ∧ 6 ≤ q ∧ q ≤ 12)
    ∧ sanitizeDifficulty none = .finite 6
    ∧ sanitizeDifficulty (some .nan) = .finite 6
    ∧ sanitizeDifficulty (some (.finite 0)) = .finite 6
    ∧ (∀ n : Int, 6 ≤ n → n ≤ 12 → sanitizeDifficulty (some (.finite n)) = .finite n)
    ∧ (∀ (currentGrade currentStreak upThreshold : Int) (wasCorrect : Bool),
        6 ≤ currentGrade → currentGrade ≤ 12 →
        sanitizeDifficulty (some (.finite
            (decideNextState currentGrade currentStreak wasCorrect upThreshold
              defaultMinGrade defaultMaxGrade).nextGrade))
          = .finite (decideNextState currentGrade currentStreak wasCorrect upThreshold
              defaultMinGrade defaultMaxGrade).nextGrade) := by
  refine ⟨sanitizeDifficulty_in_range difficulty, sanitizeDifficulty_none,
    sanitizeDifficulty_of_falsy _ rfl, sanitizeDifficulty_of_falsy _ (by simp [JSNumber.truthy]),
    sanitizeDifficulty_int, ?_⟩
  · intro g s k b h6 h12
    have hr := stepSession_grade_in_range k defaultMinGrade defaultMaxGrade ⟨g, s⟩ b h6 h12
    exact sanitizeDifficulty_int _ hr.1 hr.2


/-! ### The controller on the numbers of the runtime -/

theorem ulp_of_lt (a : Nat) (h : a < 2 ^ 53) : ulp a = 1 := by
  have h1 : a < 2 ^ 53 * 1 := by omega
  have step : ulpFrom (1023 + 1) 1 a = if a < 2 ^ 53 * 1 then 1 else ulpFrom 1023 (2 * 1) a :=
    rfl
  exact step.trans (if_pos h1)

theorem roundBinary64_exact (n : Int) (h : n.natAbs ≤ 2 ^ 53) : roundBinary64 n = n := by
  rcases Nat.lt_or_ge n.natAbs (2 ^ 53) with hlt | hge
  · simp only [roundBinary64, ulp_of_lt _ hlt, Nat.div_one, Nat.mod_one, Nat.mul_zero,
      Nat.zero_lt_one, if_true, Nat.mul_one]
    exact Int.sign_mul_natAbs n
  · have ha : n.natAbs = 2 ^ 53 := Nat.le_antisymm h hge
    rcases Int.natAbs_eq n with hn | hn
    · rw [hn, ha]
      decide
    · rw [hn, ha]
      decide

theorem addBinary64_one_exact (x : Int) (h1 : -2 ^ 53 ≤ x) (h2 : x < 2 ^ 53) :
    addBinary64 x 1 = x + 1 :=
  roundBinary64_exact (x + 1) (by omega)

theorem subBinary64_one_exact (x : Int) (h1 : -2 ^ 53 < x) (h2 : x ≤ 2 ^ 53) :
    subBinary64 x 1 = x - 1 :=
  roundBinary64_exact (x - 1) (by omega)

theorem decideNextStateBinary64_correct (g s k lo hi : Int) :
    decideNextStateBinary64 g s true k lo hi =
      if addBinary64 s 1 ≥ k ∧ g < hi then ⟨addBinary64 g 1, 0⟩ else ⟨g, addBinary64 s 1⟩ := by
  simp [decideNextStateBinary64, Id.run]

theorem decideNextStateBinary64_wrong (g s k lo hi : Int) :
    decideNextStateBinary64 g s false k lo hi =
      if g > lo then ⟨subBinary64 g 1, 0⟩ else ⟨g, 0⟩ := by
  simp [decideNextStateBinary64, Id.run]

/-- On a correct answer the controller of the runtime is the controller on
mathematical integers as long as `currentGrade + 1` and `currentStreak + 1` are
exact. -/
theorem decideNextStateBinary64_correct_eq (g s k lo hi : Int)
    (hg1 : -2 ^ 53 ≤ g) (hg2 : g < 2 ^ 53) (hs1 : -2 ^ 53 ≤ s) (hs2 : s < 2 ^ 53) :
    decideNextStateBinary64 g s true k lo hi = decideNextState g s true k lo hi := by
  rw [decideNextStateBinary64_correct, decideNextState_correct,
    addBinary64_one_exact g hg1 hg2, addBinary64_one_exact s hs1 hs2]

/-- On a wrong answer the controller of the runtime is the controller on
mathematical integers as long as `currentGrade - 1` is exact. -/
theorem decideNextStateBinary64_wrong_eq (g s k lo hi : Int)
    (hg1 : -2 ^ 53 < g) (hg2 : g ≤ 2 ^ 53) :
    decideNextStateBinary64 g s false k lo hi = decideNextState g s false k lo hi := by
  rw [decideNextStateBinary64_wrong, decideNextState_wrong, subBinary64_one_exact g hg1 hg2]

theorem stepSessionBinary64_correct_eq (k lo hi : Int) (st : Session)
    (hg1 : -2 ^ 53 ≤ st.grade) (hg2 : st.grade < 2 ^ 53)
    (hs1 : -2 ^ 53 ≤ st.streak) (hs2 : st.streak < 2 ^ 53) :
    stepSessionBinary64 k lo hi st true = stepSession k lo hi st true := by
  simp only [stepSessionBinary64, stepSession,
    decideNextStateBinary64_correct_eq st.grade st.streak k lo hi hg1 hg2 hs1 hs2]

theorem stepSessionBinary64_wrong_eq (k lo hi : Int) (st : Session)
    (hg1 : -2 ^ 53 < st.grade) (hg2 : st.grade ≤ 2 ^ 53) :
    stepSessionBinary64 k lo hi st false = stepSession k lo hi st false := by
  simp only [stepSessionBinary64, stepSession,
    decideNextStateBinary64_wrong_eq st.grade st.streak k lo hi hg1 hg2]

/-- The range invariant on the numbers of the runtime: from a grade in
`[minGrade, maxGrade]` that is below 2^53 in magnitude, the grade returned is in
`[minGrade, maxGrade]`, whatever the streak and the threshold are. -/
theorem decideNextStateBinary64_grade_in_range (g s k lo hi : Int) (b : Bool)
    (hg1 : -2 ^ 53 < g) (hg2 : g < 2 ^ 53) (hlo : lo ≤ g) (hhi : g ≤ hi) :
    lo ≤ (decideNextStateBinary64 g s b k lo hi).nextGrade
      ∧ (decideNextStateBinary64 g s b k lo hi).nextGrade ≤ hi := by
  cases b
  · rw [decideNextStateBinary64_wrong, subBinary64_one_exact g hg1 (le_of_lt hg2)]
    split <;> constructor <;> simp only <;> omega
  · rw [decideNextStateBinary64_correct, addBinary64_one_exact g (le_of_lt hg1) hg2]
    split <;> constructor <;> simp only <;> omega

theorem runSessionBinary64_nil (k lo hi : Int) (st : Session) :
    runSessionBinary64 k lo hi st [] = st := rfl

theorem runSessionBinary64_cons (k lo hi : Int) (st : Session) (b : Bool) (bs : List Bool) :
    runSessionBinary64 k lo hi st (b :: bs)
      = runSessionBinary64 k lo hi (stepSessionBinary64 k lo hi st b) bs := rfl

theorem runSessionBinary64_append (k lo hi : Int) (st : Session) (xs ys : List Bool) :
    runSessionBinary64 k lo hi st (xs ++ ys)
      = runSessionBinary64 k lo hi (runSessionBinary64 k lo hi st xs) ys := by
  simp [runSessionBinary64, List.foldl_append]

/-- Correct answers below the promotion threshold only count up the streak, as
long as the count stays exact. -/
theorem runSessionBinary64_correct_below_threshold (k lo hi d : Int)
    (hd1 : -2 ^ 53 ≤ d) (hd2 : d < 2 ^ 53) (i : Nat) :
    ∀ s : Int, -2 ^ 53 ≤ s → s + i < k → s + i ≤ 2 ^ 53 →
      runSessionBinary64 k lo hi ⟨d, s⟩ (List.replicate i true) = ⟨d, s + i⟩ := by
  induction i with
  | zero => intro s _ _ _; simp [runSessionBinary64_nil]
  | succ i ih =>
    intro s hs hk h53
    push_cast at hk h53
    rw [List.replicate_succ, runSessionBinary64_cons,
      stepSessionBinary64_correct_eq k lo hi ⟨d, s⟩ hd1 hd2 hs (by show s < 2 ^ 53; omega),
      stepSession_correct]
    have hlt : ¬ (s + 1 ≥ k ∧ d < hi) := by
      intro h
      omega
    simp only [hlt, if_false]
    rw [ih (s + 1) (by omega) (by omega) (by omega)]
    congr 1
    push_cast
    omega

/-- Correct answers at the ceiling, as long as the count stays exact: the grade
stays, the streak counts up. -/
theorem runSessionBinary64_correct_at_ceiling (k lo hi : Int)
    (hh1 : -2 ^ 53 ≤ hi) (hh2 : hi < 2 ^ 53) (n : Nat) :
    ∀ s : Int, -2 ^ 53 ≤ s → s + n ≤ 2 ^ 53 →
      runSessionBinary64 k lo hi ⟨hi, s⟩ (List.replicate n true) = ⟨hi, s + n⟩ := by
  induction n with
  | zero => intro s _ _; simp [runSessionBinary64_nil]
  | succ n ih =>
    intro s hs h53
    push_cast at h53
    rw [List.replicate_succ, runSessionBinary64_cons,
      stepSessionBinary64_correct_eq k lo hi ⟨hi, s⟩ hh1 hh2 hs (by show s < 2 ^ 53; omega),
      stepSession_correct]
    simp only [lt_self_iff_false, and_false, if_false]
    rw [ih (s + 1) (by omega) (by omega)]
    congr 1
    push_cast
    omega

/-- At streak 2^53 a correct answer at the ceiling changes nothing: the binary64
sum of 2^53 and 1 is 2^53. -/
theorem stepSessionBinary64_stuck (k lo hi : Int) :
    stepSessionBinary64 k lo hi ⟨hi, 9007199254740992⟩ true = ⟨hi, 9007199254740992⟩ := by
  have hadd : addBinary64 9007199254740992 1 = 9007199254740992 := by decide
  simp only [stepSessionBinary64, decideNextStateBinary64_correct, hadd, lt_self_iff_false,
    and_false, if_false]

theorem runSessionBinary64_stuck (k lo hi : Int) (m : Nat) :
    runSessionBinary64 k lo hi ⟨hi, 9007199254740992⟩ (List.replicate m true)
      = ⟨hi, 9007199254740992⟩ := by
  induction m with
  | zero => rfl
  | succ m ih =>
    rw [List.replicate_succ, runSessionBinary64_cons, stepSessionBinary64_stuck, ih]


/-! ### The controller claims that depend on the arithmetic of the runtime -/

/-- C1, as amended: for every `currentGrade` with `-2^53 < currentGrade < 2^53`,
every `currentStreak` with `-2^53 ≤ currentStreak < 2^53`, all integers
`upThreshold`, `minGrade`, `maxGrade` and every boolean `wasCorrect`,
`decideNextState` with the arithmetic of the runtime returns exactly the pair of
the specification's transition; the returned streak is 0 after every wrong
answer and after every promotion (a returned grade above the current one). -/
theorem decideNextStateBinary64_eq_specTransition (currentGrade currentStreak : Int)
    (wasCorrect : Bool) (upThreshold minGrade maxGrade : Int)
    (hg1 : -2 ^ 53 < currentGrade) (hg2 : currentGrade < 2 ^ 53)
    (hs1 : -2 ^ 53 ≤ currentStreak) (hs2 : currentStreak < 2 ^ 53) :
    ((decideNextStateBinary64 currentGrade currentStreak wasCorrect upThreshold minGrade
          maxGrade).nextGrade,
      (decideNextStateBinary64 currentGrade currentStreak wasCorrect upThreshold minGrade
          maxGrade).nextStreak)
        = specTransition currentGrade currentStreak wasCorrect upThreshold minGrade maxGrade
    ∧ (wasCorrect = false →
        (decideNextStateBinary64 currentGrade currentStreak wasCorrect upThreshold minGrade
          maxGrade).nextStreak = 0)
    ∧ (currentGrade <
          (decideNextStateBinary64 currentGrade currentStreak wasCorrect upThreshold minGrade
            maxGrade).nextGrade →
        (decideNextStateBinary64 currentGrade currentStreak wasCorrect upThreshold minGrade
          maxGrade).nextStreak = 0) := by
  cases wasCorrect
  · rw [decideNextStateBinary64_wrong_eq currentGrade currentStreak upThreshold minGrade maxGrade
      hg1 (le_of_lt hg2), decideNextState_wrong]
    refine ⟨?_, ?_, ?_⟩
    · simp only [specTransition]
      split <;> simp
    · intro _
      split <;> rfl
    · intro _
      split <;> rfl
  · rw [decideNextStateBinary64_correct_eq currentGrade currentStreak upThreshold minGrade
      maxGrade (le_of_lt hg1) hg2 hs1 hs2, decideNextState_correct]
    refine ⟨?_, ?_, ?_⟩
    · simp only [specTransition]
      split <;> simp
    · intro h
      cases h
    · split
      · intro _; rfl
      · intro h
        simp only at h
        omega

/-- Witness for C1: the second correct answer at grade 6 with the defaults. -/
theorem decideNextStateBinary64_eq_specTransition_witness :
    ((decideNextStateBinary64 6 1 true 2 6 12).nextGrade,
      (decideNextStateBinary64 6 1 true 2 6 12).nextStreak)
        = specTransition 6 1 true 2 6 12
    ∧ (true = false → (decideNextStateBinary64 6 1 true 2 6 12).nextStreak = 0)
    ∧ ((6 : Int) < (decideNextStateBinary64 6 1 true 2 6 12).nextGrade →
        (decideNextStateBinary64 6 1 true 2 6 12).nextStreak = 0) :=
  decideNextStateBinary64_eq_specTransition 6 1 true 2 6 12 (by norm_num) (by norm_num)
    (by norm_num) (by norm_num)

/-- Counterexample to C1 as stated: at grade 2^53 = 9007199254740992, streak 1, a
correct answer, threshold 2 and `maxGrade` 2^53 + 2, the code returns the grade
2^53 unchanged with streak 0 (the binary64 sum of 2^53 and 1 is 2^53), where the
transition of the specification gives the grade 2^53 + 1. -/
theorem decideNextStateBinary64_ne_specTransition :
    decideNextStateBinary64 9007199254740992 1 true 2 6 9007199254740994
        = ⟨9007199254740992, 0⟩
    ∧ specTransition 9007199254740992 1 true 2 6 9007199254740994 = (9007199254740993, 0)
    ∧ ((decideNextStateBinary64 9007199254740992 1 true 2 6 9007199254740994).nextGrade,
        (decideNextStateBinary64 9007199254740992 1 true 2 6 9007199254740994).nextStreak)
        ≠ specTransition 9007199254740992 1 true 2 6 9007199254740994 := by
  decide

/-- C6, as amended: promotion happens exactly on the `upThreshold`-th consecutive
correct answer as long as the numbers involved are exact: for `1 ≤ k ≤ 2^53` and
a grade `d < maxGrade` with `-2^53 ≤ d < 2^53`, the state after `i < k` correct
answers from `(d, 0)` is `(d, i)` and after `k` of them it is `(d + 1, 0)`; with
the defaults, `(6, 0)` goes to `(6, 1)` and then to `(7, 0)`. -/
theorem promotion_on_kth_correct_binary64 (k : Nat) (hk : 1 ≤ k) (hk53 : k ≤ 2 ^ 53)
    (minGrade maxGrade d : Int) (hd : d < maxGrade) (hd1 : -2 ^ 53 ≤ d) (hd2 : d < 2 ^ 53) :
    (∀ i : Nat, i < k →
        runSessionBinary64 k minGrade maxGrade ⟨d, 0⟩ (List.replicate i true) = ⟨d, i⟩)
    ∧ runSessionBinary64 k minGrade maxGrade ⟨d, 0⟩ (List.replicate k true) = ⟨d + 1, 0⟩
    ∧ runSessionBinary64 defaultUpThreshold defaultMinGrade defaultMaxGrade ⟨6, 0⟩ [true]
        = ⟨6, 1⟩
    ∧ runSessionBinary64 defaultUpThreshold defaultMinGrade defaultMaxGrade ⟨6, 0⟩ [true, true]
        = ⟨7, 0⟩ := by
  have below : ∀ i : Nat, i < k →
      runSessionBinary64 k minGrade maxGrade ⟨d, 0⟩ (List.replicate i true) = ⟨d, i⟩ := by
    intro i hi
    have h := runSessionBinary64_correct_below_threshold k minGrade maxGrade d hd1 hd2 i 0
      (by norm_num) (by omega) (by omega)
    simpa using h
  refine ⟨below, ?_, by decide, by decide⟩
  obtain ⟨j, rfl⟩ : ∃ j, k = j + 1 := ⟨k - 1, by omega⟩
  rw [List.replicate_succ', runSessionBinary64_append, below j (by omega),
    runSessionBinary64_cons, runSessionBinary64_nil,
    stepSessionBinary64_correct_eq _ minGrade maxGrade ⟨d, j⟩ hd1 hd2
      (by show -2 ^ 53 ≤ (j : Int); omega) (by show (j : Int) < 2 ^ 53; omega),
    stepSession_correct]
  have hge : ((j : Int) + 1 ≥ ((j + 1 : Nat) : Int)) ∧ d < maxGrade :=
    ⟨by push_cast; omega, hd⟩
  simp only [hge, and_self, if_true]

/-- Witness for C6: the default threshold 2 and grade 6 below the ceiling 12. -/
theorem promotion_on_kth_correct_binary64_witness :
    (∀ i : Nat, i < 2 →
        runSessionBinary64 (2 : Nat) 6 12 ⟨6, 0⟩ (List.replicate i true) = ⟨6, i⟩)
    ∧ runSessionBinary64 (2 : Nat) 6 12 ⟨6, 0⟩ (List.replicate 2 true) = ⟨6 + 1, 0⟩
    ∧ runSessionBinary64 defaultUpThreshold defaultMinGrade defaultMaxGrade ⟨6, 0⟩ [true]
        = ⟨6, 1⟩
    ∧ runSessionBinary64 defaultUpThreshold defaultMinGrade defaultMaxGrade ⟨6, 0⟩ [true, true]
        = ⟨7, 0⟩ :=
  promotion_on_kth_correct_binary64 2 (by decide) (by norm_num) 6 12 6 (by decide)
    (by norm_num) (by norm_num)

/-- Counterexample to C6 as stated: with threshold 2 and `maxGrade` 2^53 + 2, two
correct answers from `(2^53, 0)` lead to `(2^53, 0)`, not to `(2^53 + 1, 0)`: the
promotion branch is taken on the second call, but the binary64 sum of 2^53 and 1
is 2^53. -/
theorem promotion_lost_above_two_pow_53 :
    (9007199254740992 : Int) < 9007199254740994
    ∧ runSessionBinary64 2 6 9007199254740994 ⟨9007199254740992, 0⟩ (List.replicate 2 true)
        = ⟨9007199254740992, 0⟩
    ∧ runSessionBinary64 2 6 9007199254740994 ⟨9007199254740992, 0⟩ (List.replicate 2 true)
        ≠ ⟨9007199254740992 + 1, 0⟩ := by
  decide

/-- C8, as amended: at the ceiling 12 (the default `maxGrade`) correct answers
never reset the streak: for every threshold, every starting streak `s ≥ 0` and
every `n` with `s + n ≤ 2^53`, `n` correct answers from `(12, s)` lead to
`(12, s + n)`; the streak so reaches 2^53 = 9007199254740992 and then stays
there, every further correct answer leaving the state at `(12, 2^53)`. -/
theorem streak_at_ceiling_binary64 (upThreshold minGrade s : Int) (n : Nat)
    (hs : 0 ≤ s) (hn : s + n ≤ 2 ^ 53) :
    runSessionBinary64 upThreshold minGrade defaultMaxGrade ⟨12, s⟩ (List.replicate n true)
        = ⟨12, s + n⟩
    ∧ ∀ m : Nat,
        runSessionBinary64 upThreshold minGrade defaultMaxGrade ⟨12, 9007199254740992⟩
            (List.replicate m true)
          = ⟨12, 9007199254740992⟩ := by
  have h := runSessionBinary64_correct_at_ceiling upThreshold minGrade defaultMaxGrade
    (by simp only [defaultMaxGrade]; norm_num) (by simp only [defaultMaxGrade]; norm_num) n s
    (by omega) hn
  have stuck := runSessionBinary64_stuck upThreshold minGrade defaultMaxGrade
  simp only [defaultMaxGrade] at h stuck ⊢
  exact ⟨h, stuck⟩

/-- Witness for C8: three correct answers from `(12, 5)` with the defaults. -/
theorem streak_at_ceiling_binary64_witness :
    runSessionBinary64 2 6 defaultMaxGrade ⟨12, 5⟩ (List.replicate 3 true)
        = ⟨12, 5 + (3 : Nat)⟩
    ∧ ∀ m : Nat,
        runSessionBinary64 2 6 defaultMaxGrade ⟨12, 9007199254740992⟩ (List.replicate m true)
          = ⟨12, 9007199254740992⟩ :=
  streak_at_ceiling_binary64 2 6 5 3 (by norm_num) (by norm_num)

/-- Counterexample to C8 as stated: from `(12, 2^53)` one correct answer leaves
the streak at 2^53 instead of 2^53 + 1, and no number of correct answers makes
it exceed the bound 2^53. -/
theorem streak_bounded_at_ceiling :
    runSessionBinary64 2 6 defaultMaxGrade ⟨12, 9007199254740992⟩ (List.replicate 1 true)
        = ⟨12, 9007199254740992⟩
    ∧ runSessionBinary64 2 6 defaultMaxGrade ⟨12, 9007199254740992⟩ (List.replicate 1 true)
        ≠ ⟨12, 9007199254740992 + (1 : Nat)⟩
    ∧ ¬ ∃ m : Nat, (9007199254740992 : Int) <
        (runSessionBinary64 2 6 defaultMaxGrade ⟨12, 9007199254740992⟩
          (List.replicate m true)).streak := by
  refine ⟨by decide, by decide, ?_⟩
  rintro ⟨m, hm⟩
  have stuck := runSessionBinary64_stuck 2 6 defaultMaxGrade m
  simp only [defaultMaxGrade] at stuck hm
  rw [stuck] at hm
  exact lt_irrefl _ hm

end ChemistryPractice
